import Mathlib

/-!  A shallow embedding of the PostgreSQL property-graph store
(`property_graph.py` together with `utils.py`).  The node and relation
tables become lists of rows, and each store method becomes a pure function
on that state.  Machine floats of the embedding column are modelled as
rationals; cosine distance over stored vectors is a capability of the
database engine (spec §1), so it enters `vector_search` as a function
parameter. -/

namespace PGStore

mutual
/-- JSON-compatible property values, as stored in a `properties` JSON column. -/
inductive PValue : Type where
  | null : PValue
  | str : String → PValue
  | num : Int → PValue
  | bool : Bool → PValue
  | arr : PList → PValue
inductive PList : Type where
  | nil : PList
  | cons : PValue → PList → PList
end

mutual
/-- Decidable equality for `PValue` (nested `arr` prevents deriving it). -/
def PValue.decEq : (a b : PValue) → Decidable (a = b)
  | .null, .null => isTrue rfl
  | .str a, .str b =>
      if h : a = b then isTrue (by rw [h])
      else isFalse (by intro hh; injection hh; contradiction)
  | .num a, .num b =>
      if h : a = b then isTrue (by rw [h])
      else isFalse (by intro hh; injection hh; contradiction)
  | .bool a, .bool b =>
      if h : a = b then isTrue (by rw [h])
      else isFalse (by intro hh; injection hh; contradiction)
  | .arr a, .arr b =>
      match PList.decEq a b with
      | isTrue h => isTrue (by rw [h])
      | isFalse h => isFalse (by intro hh; injection hh; contradiction)
  | .null, .str _ => isFalse (by intro hh; injection hh)
  | .null, .num _ => isFalse (by intro hh; injection hh)
  | .null, .bool _ => isFalse (by intro hh; injection hh)
  | .null, .arr _ => isFalse (by intro hh; injection hh)
  | .str _, .null => isFalse (by intro hh; injection hh)
  | .str _, .num _ => isFalse (by intro hh; injection hh)
  | .str _, .bool _ => isFalse (by intro hh; injection hh)
  | .str _, .arr _ => isFalse (by intro hh; injection hh)
  | .num _, .null => isFalse (by intro hh; injection hh)
  | .num _, .str _ => isFalse (by intro hh; injection hh)
  | .num _, .bool _ => isFalse (by intro hh; injection hh)
  | .num _, .arr _ => isFalse (by intro hh; injection hh)
  | .bool _, .null => isFalse (by intro hh; injection hh)
  | .bool _, .str _ => isFalse (by intro hh; injection hh)
  | .bool _, .num _ => isFalse (by intro hh; injection hh)
  | .bool _, .arr _ => isFalse (by intro hh; injection hh)
  | .arr _, .null => isFalse (by intro hh; injection hh)
  | .arr _, .str _ => isFalse (by intro hh; injection hh)
  | .arr _, .num _ => isFalse (by intro hh; injection hh)
  | .arr _, .bool _ => isFalse (by intro hh; injection hh)
def PList.decEq : (a b : PList) → Decidable (a = b)
  | .nil, .nil => isTrue rfl
  | .nil, .cons _ _ => isFalse (by intro hh; injection hh)
  | .cons _ _, .nil => isFalse (by intro hh; injection hh)
  | .cons x xs, .cons y ys =>
      match PValue.decEq x y, PList.decEq xs ys with
      | isTrue h1, isTrue h2 => isTrue (by rw [h1, h2])
      | isFalse h1, _ => isFalse (by intro hh; injection hh with hx _; exact h1 hx)
      | _, isFalse h2 => isFalse (by intro hh; injection hh with _ hxs; exact h2 hxs)
end

instance : DecidableEq PValue := PValue.decEq

instance : DecidableEq PList := PList.decEq

def PList.isNil : PList → Bool
  | .nil => true
  | .cons _ _ => false

/-- Python truthiness of a JSON value: the condition `if value` used by
`remove_empty_values`. -/
def PValue.truthy : PValue → Bool
  | .null => false
  | .str s => !s.isEmpty
  | .num n => n != 0
  | .bool b => b
  | .arr xs => !xs.isNil

/-- `utils.remove_empty_values`: keep exactly the entries whose value is truthy. -/
def remove_empty_values (input_dict : List (String × PValue)) : List (String × PValue) :=
  input_dict.filter (fun kv => kv.2.truthy)

/-- A row of the node table (`NodeModel`). -/
structure StoredNode where
  id : String
  text : Option String := none
  name : Option String := none
  label : String := "node"
  properties : List (String × PValue) := []
  embedding : Option (List Rat) := none
deriving DecidableEq

/-- A row of the relation table (`RelationModel`); `id` is the synthetic
auto-increment primary key. -/
structure StoredRelation where
  id : Nat
  label : String
  source_id : String
  target_id : String
  properties : List (String × PValue) := []
deriving DecidableEq

/-- The two tables plus the auto-increment counter backing `RelationModel.id`. -/
structure Store where
  nodes : List StoredNode := []
  relations : List StoredRelation := []
  nextRelId : Nat := 1
deriving DecidableEq

/-- Modelled from the spec: the id derivation of `EntityNode` lives in
`llama_index.core.graph_stores.types`, which is not among this repository's
sources.  Spec §3: ids are "derived deterministically from `(label, name)`
for entity-style nodes or supplied explicitly for chunk-style nodes".  We fix
one deterministic derivation from `(label, name)`. -/
def entityId (label : String) (name : Option String) : String :=
  label ++ ":" ++ name.getD ""

/-- The caller-supplied node objects (`ChunkNode` / `EntityNode`).  A chunk
carries an explicit id; an entity's id is the derived `entityId`. -/
inductive LabelledNode : Type where
  | chunk (id : String) (text : String) (label : String)
      (properties : List (String × PValue)) (embedding : Option (List Rat))
  | entity (name : String) (label : String)
      (properties : List (String × PValue)) (embedding : Option (List Rat))
deriving DecidableEq

def LabelledNode.id : LabelledNode → String
  | .chunk i _ _ _ _ => i
  | .entity name label _ _ => entityId label (some name)

/-- The `node_data` dictionary built inside `add_node`.  A key that the code
leaves out of the dictionary (`name` for chunks, `text` for entities) and a
key whose value is Python `None` behave identically in both branches, so both
are `none` here. -/
structure NodeData where
  id : String
  text : Option String
  name : Option String
  label : String
  properties : List (String × PValue)
  embedding : Option (List Rat)
deriving DecidableEq

def nodeDataOf : LabelledNode → NodeData
  | .chunk i text label props emb =>
      { id := i, text := some text, name := none, label := label,
        properties := props, embedding := emb }
  | .entity name label props emb =>
      { id := entityId label (some name), text := none, name := some name,
        label := label, properties := props, embedding := emb }

/-- The update loop of `add_node`: `setattr` for every `node_data` entry whose
value is not `None`.  `label` and `properties` are never `None` (the code
builds `properties` as `node.properties or {}`, which is a dict — possibly
empty — and never `None`), so they always overwrite. -/
def applyData (old : StoredNode) (d : NodeData) : StoredNode :=
  { id := d.id,
    text := match d.text with | some t => some t | none => old.text,
    name := match d.name with | some m => some m | none => old.name,
    label := d.label,
    properties := d.properties,
    embedding := match d.embedding with | some e => some e | none => old.embedding }

/-- A fresh row inserted by `add_node` when no row with the id exists. -/
def newFromData (d : NodeData) : StoredNode :=
  { id := d.id, text := d.text, name := d.name, label := d.label,
    properties := d.properties, embedding := d.embedding }

/-- Mutate the first row matching the id (the row returned by `.first()`). -/
def updateFirstNode : List StoredNode → NodeData → List StoredNode
  | [], _ => []
  | n :: ns, d =>
      if n.id == d.id then applyData n d :: ns else n :: updateFirstNode ns d

def findNode (st : Store) (i : String) : Option StoredNode :=
  st.nodes.find? (fun n => n.id == i)

/-- `PostgresPropertyGraphStore.add_node`. -/
def add_node (st : Store) (node : LabelledNode) : Store :=
  match findNode st (nodeDataOf node).id with
  | some _ => { st with nodes := updateFirstNode st.nodes (nodeDataOf node) }
  | none => { st with nodes := st.nodes ++ [newFromData (nodeDataOf node)] }

/-- `PostgresPropertyGraphStore.add_nodes`: sequential per-item upserts. -/
def add_nodes (st : Store) (ns : List LabelledNode) : Store :=
  ns.foldl add_node st

/-- The caller-supplied `Relation` object. -/
structure Relation where
  label : String
  source_id : String
  target_id : String
  properties : List (String × PValue) := []
deriving DecidableEq

/-- The `filter_by(source_id=…, target_id=…, label=…)` match of `add_relation`. -/
def relMatchKey (r : Relation) (er : StoredRelation) : Bool :=
  er.source_id == r.source_id && er.target_id == r.target_id && er.label == r.label

/-- Mutate the first stored relation matching the `(source_id, target_id, label)`
key: every `relation_data` value is non-`None`, so every field is overwritten. -/
def updateFirstRel : List StoredRelation → Relation → List StoredRelation
  | [], _ => []
  | er :: ers, r =>
      if relMatchKey r er then
        { er with label := r.label, source_id := r.source_id,
                  target_id := r.target_id, properties := r.properties } :: ers
      else er :: updateFirstRel ers r

/-- `PostgresPropertyGraphStore.add_relation`.  The endpoint lookups happen
first and the `ValueError` is raised before anything is added to the session,
so an error leaves the store untouched. -/
def add_relation (st : Store) (r : Relation) : Except String Store :=
  if (findNode st r.source_id).isNone || (findNode st r.target_id).isNone then
    .error "Source or target node not found for relation"
  else if (st.relations.find? (relMatchKey r)).isSome then
    .ok { st with relations := updateFirstRel st.relations r }
  else
    .ok { st with
          relations := st.relations ++
            [{ id := st.nextRelId, label := r.label, source_id := r.source_id,
               target_id := r.target_id, properties := r.properties }],
          nextRelId := st.nextRelId + 1 }

/-- `PostgresPropertyGraphStore.delete_node`: first remove every relation in
which the id appears as source or target, then remove the node row. -/
def delete_node (st : Store) (node_id : String) : Store :=
  { st with
    relations := st.relations.filter
      (fun r => !(r.source_id == node_id || r.target_id == node_id)),
    nodes := st.nodes.filter (fun n => !(n.id == node_id)) }

/-- The per-key JSON property filter `properties[key] == value` (an absent key
compares as SQL `NULL`, which never matches). -/
def propFilter (props : List (String × PValue)) (stored : List (String × PValue)) : Bool :=
  props.all (fun kv => List.lookup kv.1 stored == some kv.2)

/-- The row selection of `get`: the property filter is applied per key (a
conjunction, vacuous when the dict is empty — Python skips it via `if
properties:`), and the id filter only when the list is non-empty (`if ids:`). -/
def nodeSelect (st : Store) (properties : List (String × PValue)) (ids : List String) :
    List StoredNode :=
  st.nodes.filter (fun n =>
    propFilter properties n.properties && (ids.isEmpty || ids.contains n.id))

/-- Python truthiness of the nullable `text` column. -/
def textTruthy : Option String → Bool
  | some t => !t.isEmpty
  | none => false

/-- A node object returned to the caller (`ChunkNode` / `EntityNode`, with the
optional similarity score attached by `vector_search`). -/
inductive OutNode : Type where
  | chunk (id : String) (text : String) (label : String)
      (properties : List (String × PValue)) (score : Option Rat)
  | entity (name : Option String) (label : String)
      (properties : List (String × PValue)) (score : Option Rat)
deriving DecidableEq

def OutNode.isChunk : OutNode → Bool
  | .chunk _ _ _ _ _ => true
  | .entity _ _ _ _ => false

def OutNode.isEntity : OutNode → Bool
  | .chunk _ _ _ _ _ => false
  | .entity _ _ _ _ => true

def OutNode.score : OutNode → Option Rat
  | .chunk _ _ _ _ s => s
  | .entity _ _ _ s => s

/-- The id the returned object reports: a chunk carries the stored id, an
entity re-derives it (`entityId`, modelled from the spec). -/
def OutNode.idOf : OutNode → String
  | .chunk i _ _ _ _ => i
  | .entity name label _ _ => entityId label name

/-- The row-to-object conversion inside the loop of `get`: the branch
`if n.text and n.name is None` builds a `ChunkNode` (passing the stored id
through), else an `EntityNode` (id not passed through). -/
def getRowToNode (n : StoredNode) : OutNode :=
  if textTruthy n.text && n.name.isNone then
    .chunk n.id (n.text.getD "") n.label (remove_empty_values n.properties) none
  else
    .entity n.name n.label (remove_empty_values n.properties) none

/-- `PostgresPropertyGraphStore.get`. -/
def get (st : Store) (properties : List (String × PValue)) (ids : List String) :
    List OutNode :=
  (nodeSelect st properties ids).map getRowToNode

/-- The `Relation` object built by `get_triplets` / returned triplet edge: its
`source_id` and `target_id` are the ids reported by the freshly built endpoint
objects, not the stored foreign keys. -/
structure OutRelation where
  label : String
  source_id : String
  target_id : String
  properties : List (String × PValue)
deriving DecidableEq

/-- The WHERE clause accumulated by `get_triplets` for one relation row.
Each of the four filters is applied only when its argument is non-empty
(Python `if ids:` etc.); `source.has(...)` on a `NULL`-named or missing
endpoint matches nothing. -/
def tripletRelMatch (st : Store) (entity_names relation_names : List String)
    (properties : List (String × PValue)) (ids : List String)
    (r : StoredRelation) : Bool :=
  (ids.isEmpty || (ids.contains r.source_id || ids.contains r.target_id)) &&
  (properties.all (fun kv =>
    (List.lookup kv.1 r.properties == some kv.2) ||
    (match findNode st r.source_id with
     | some s => List.lookup kv.1 s.properties == some kv.2
     | none => false) ||
    (match findNode st r.target_id with
     | some t => List.lookup kv.1 t.properties == some kv.2
     | none => false))) &&
  (entity_names.isEmpty ||
    ((match findNode st r.source_id with
      | some s => match s.name with
        | some nm => entity_names.contains nm
        | none => false
      | none => false) ||
     (match findNode st r.target_id with
      | some t => match t.name with
        | some nm => entity_names.contains nm
        | none => false
      | none => false))) &&
  (relation_names.isEmpty || relation_names.contains r.label)

/-- `PostgresPropertyGraphStore.get_triplets`.  Both endpoints are always
rebuilt as `EntityNode`s — the chunk branch is never taken here.  The foreign
keys are valid in every reachable store (`add_relation` checks them and
`delete_node` cascades), so the joined endpoints exist; a dangling row would
make the Python `r.source.name` access crash and is filtered out here. -/
def get_triplets (st : Store) (entity_names relation_names : List String)
    (properties : List (String × PValue)) (ids : List String) :
    List (OutNode × OutRelation × OutNode) :=
  if ids.isEmpty && properties.isEmpty && entity_names.isEmpty &&
      relation_names.isEmpty then
    []
  else
    (st.relations.filter
        (tripletRelMatch st entity_names relation_names properties ids)).filterMap
      (fun r =>
        match findNode st r.source_id, findNode st r.target_id with
        | some s, some t =>
          let source : OutNode :=
            .entity s.name s.label (remove_empty_values s.properties) none
          let target : OutNode :=
            .entity t.name t.label (remove_empty_values t.properties) none
          some (source,
            { label := r.label, source_id := source.idOf, target_id := target.idOf,
              properties := remove_empty_values r.properties },
            target)
        | _, _ => none)

/-- One row of the recursive CTE `PATH` in `rel_depth_query`. -/
structure PathRow where
  depth : Nat
  source_id : String
  target_id : String
  label : String
  properties : List (String × PValue)
deriving DecidableEq

/-- The non-recursive branch of the CTE: every relation whose `source_id` is
in `:ids`, at depth 1.  No depth condition guards this branch. -/
def cteBase (rels : List StoredRelation) (ids : List String) : List PathRow :=
  (rels.filter (fun r => ids.contains r.source_id)).map
    (fun r => { depth := 1, source_id := r.source_id, target_id := r.target_id,
                label := r.label, properties := r.properties })

/-- One application of the recursive branch: join each accumulated path with
the relations leaving its target, guarded by `p.depth < :depth`. -/
def cteStep (rels : List StoredRelation) (maxDepth : Nat) (frontier : List PathRow) :
    List PathRow :=
  frontier.flatMap (fun p =>
    if p.depth < maxDepth then
      (rels.filter (fun r => r.source_id == p.target_id)).map
        (fun r => { depth := p.depth + 1, source_id := r.source_id,
                    target_id := r.target_id, label := r.label,
                    properties := r.properties })
    else [])

/-- The `n`-th iterate of the recursive branch (level `n` holds the paths of
depth `n + 1`). -/
def cteLevel (rels : List StoredRelation) (ids : List String) (maxDepth : Nat) :
    Nat → List PathRow
  | 0 => cteBase rels ids
  | n + 1 => cteStep rels maxDepth (cteLevel rels ids maxDepth n)

/-- The full CTE result: the union of all levels.  Level `n` can only be
non-empty while `n + 1 ≤ max 1 maxDepth`, so `maxDepth + 1` levels cover the
fixed point. -/
def ctePaths (rels : List StoredRelation) (ids : List String) (maxDepth : Nat) :
    List PathRow :=
  (List.range (maxDepth + 1)).flatMap (cteLevel rels ids maxDepth)

/-- The outer joins of `rel_depth_query`: keep each path row together with its
resolved endpoint node rows. -/
def joinedPaths (st : Store) (ids : List String) (maxDepth : Nat) :
    List (PathRow × StoredNode × StoredNode) :=
  (ctePaths st.relations ids maxDepth).filterMap (fun p =>
    match findNode st p.source_id, findNode st p.target_id with
    | some e1, some e2 => some (p, e1, e2)
    | _, _ => none)

/-- One output row of `rel_depth_query` (the selected columns). -/
structure DepthRow where
  e1_id : String
  e1_name : Option String
  e1_label : String
  e1_properties : List (String × PValue)
  rel_label : String
  rel_properties : List (String × PValue)
  e2_id : String
  e2_name : Option String
  e2_label : String
  e2_properties : List (String × PValue)
deriving DecidableEq

def projectDepthRow (x : PathRow × StoredNode × StoredNode) : DepthRow :=
  { e1_id := x.2.1.id, e1_name := x.2.1.name, e1_label := x.2.1.label,
    e1_properties := x.2.1.properties,
    rel_label := x.1.label, rel_properties := x.1.properties,
    e2_id := x.2.2.id, e2_name := x.2.2.name, e2_label := x.2.2.label,
    e2_properties := x.2.2.properties }

/-- The SQL text `rel_depth_query`: run the CTE, join both endpoints, order by
ascending depth (levels are already produced in depth order; ties keep
storage order) and truncate to `:limit` rows. -/
def rel_depth_query (st : Store) (ids : List String) (maxDepth limit : Nat) :
    List DepthRow :=
  ((joinedPaths st ids maxDepth).take limit).map projectDepthRow

/-- The fields of `VectorStoreQuery` that `vector_search` reads. -/
structure VectorStoreQuery where
  query_embedding : Option (List Rat)
  similarity_top_k : Option Int
deriving DecidableEq

/-- The `ORDER BY distance` comparison: ascending on the computed cosine
distance, with `NULL` distances (rows whose `embedding` column is `NULL`)
sorting last, as Postgres does for ascending order. -/
def distLe : StoredNode × Option Rat → StoredNode × Option Rat → Prop
  | (_, some a), (_, some b) => a ≤ b
  | (_, some _), (_, none) => True
  | (_, none), (_, some _) => False
  | (_, none), (_, none) => True

instance : DecidableRel distLe
  | (_, some a), (_, some b) => inferInstanceAs (Decidable (a ≤ b))
  | (_, some _), (_, none) => inferInstanceAs (Decidable True)
  | (_, none), (_, some _) => inferInstanceAs (Decidable False)
  | (_, none), (_, none) => inferInstanceAs (Decidable True)

instance : IsTotal (StoredNode × Option Rat) distLe where
  total := by
    intro x y
    obtain ⟨n, a⟩ := x
    obtain ⟨m, b⟩ := y
    cases a <;> cases b <;> simp [distLe]
    exact le_total _ _

instance : IsTrans (StoredNode × Option Rat) distLe where
  trans := by
    intro x y z
    obtain ⟨n, a⟩ := x
    obtain ⟨m, b⟩ := y
    obtain ⟨o, c⟩ := z
    cases a <;> cases b <;> cases c <;> simp [distLe]
    exact le_trans

/-- The conversion inside the result loop of `vector_search`: the same
chunk/entity branch as in `get`, with `score = 1.0 - distance` attached. -/
def vsRowToNode (n : StoredNode) (d : Rat) : OutNode :=
  if textTruthy n.text && n.name.isNone then
    .chunk n.id (n.text.getD "") n.label (remove_empty_values n.properties)
      (some (1 - d))
  else
    .entity n.name n.label (remove_empty_values n.properties) (some (1 - d))

/-- The result loop of `vector_search`.  A row whose distance is `NULL`
(no stored embedding) makes `1.0 - distance` raise a `TypeError`. -/
def toScored : List (StoredNode × Option Rat) → Except String (List OutNode)
  | [] => .ok []
  | (n, some d) :: rest => (toScored rest).map (fun l => vsRowToNode n d :: l)
  | (_, none) :: _ =>
      .error "unsupported operand types for subtraction: float and NoneType"

/-- The node rows in scope: the id filter is applied only when `ids` is a
non-empty list (Python `if ids:`). -/
def scopeBase (st : Store) (ids : Option (List String)) : List StoredNode :=
  match ids with
  | some l => if l.isEmpty then st.nodes else st.nodes.filter (fun n => l.contains n.id)
  | none => st.nodes

/-- Each scoped row paired with its computed cosine distance; a `NULL`
embedding yields a `NULL` distance. -/
def scopeRows (dist : List Rat → List Rat → Rat) (st : Store) (qe : List Rat)
    (ids : Option (List String)) : List (StoredNode × Option Rat) :=
  (scopeBase st ids).map (fun n => (n, n.embedding.map (fun e => dist e qe)))

/-- `PostgresPropertyGraphStore.vector_search`.  Only a missing query
embedding is validated up front.  `if query.similarity_top_k:` is a Python
truthiness test, so `None` and `0` both skip the `ORDER BY`/`LIMIT` entirely;
a negative value reaches the engine, where Postgres rejects a negative
`LIMIT`. -/
def vector_search (dist : List Rat → List Rat → Rat) (st : Store)
    (q : VectorStoreQuery) (ids : Option (List String)) :
    Except String (List OutNode) :=
  match q.query_embedding with
  | none => .error "Query embedding is required for vector search"
  | some qe =>
    match q.similarity_top_k with
    | none => toScored (scopeRows dist st qe ids)
    | some k =>
      if k = 0 then toScored (scopeRows dist st qe ids)
      else if k < 0 then .error "LIMIT must not be negative"
      else toScored ((List.insertionSort distLe (scopeRows dist st qe ids)).take k.toNat)

/-- Cosine distance restricted to unit vectors, where it coincides with
`1 - a ⬝ b`; a concrete instance of the engine's distance capability for
evaluating the store on explicit inputs. -/
def unitCosDist (a b : List Rat) : Rat :=
  1 - ((a.zip b).map (fun p => p.1 * p.2)).sum

/-!  Concrete stores used to evaluate the operations on explicit inputs. -/

/-- The chain A→B→C→D with relation labels r1, r2, r3 (spec §8). -/
def stChain : Store :=
  { nodes := [{ id := "A", name := some "A" }, { id := "B", name := some "B" },
              { id := "C", name := some "C" }, { id := "D", name := some "D" }],
    relations := [{ id := 1, label := "r1", source_id := "A", target_id := "B" },
                  { id := 2, label := "r2", source_id := "B", target_id := "C" },
                  { id := 3, label := "r3", source_id := "C", target_id := "D" }],
    nextRelId := 4 }

/-- A store with one node holding properties `{"a": "", "b": "x"}` (spec §8). -/
def stProps : Store :=
  { nodes := [{ id := "n", name := some "n",
                properties := [("a", .str ""), ("b", .str "x")] }] }

/-- A store whose single row is stored under an id that differs from the
entity derivation of its `(label, name)`. -/
def stRowId : Store :=
  { nodes := [{ id := "row-7", name := some "Alice", label := "person" }] }

/-- Two nodes with unit embeddings. -/
def stVec : Store :=
  { nodes := [{ id := "u", embedding := some [1, 0] },
              { id := "v", embedding := some [0, 1] }] }

/-- One node with no stored embedding. -/
def stNoEmb : Store :=
  { nodes := [{ id := "w" }] }

/-- Two entity rows stored under ids that differ from their `(label, name)`
derivation, joined by one relation. -/
def stRowId2 : Store :=
  { nodes := [{ id := "row-7", name := some "Alice", label := "person" },
              { id := "row-8", name := some "Bob", label := "person" }],
    relations := [{ id := 1, label := "knows", source_id := "row-7",
                    target_id := "row-8" }],
    nextRelId := 2 }

/-- A chunk-criteria row (`text` set, `name` NULL) that is the source of a
relation, plus its target. -/
def stChunkRel : Store :=
  { nodes := [{ id := "ch", text := some "some text" }, { id := "B", name := some "B" }],
    relations := [{ id := 1, label := "rel", source_id := "ch", target_id := "B" }],
    nextRelId := 2 }

/-!  Helper lemmas. -/

theorem cteLevel_nil_ids (rels : List StoredRelation) (d : Nat) :
    ∀ n, cteLevel rels [] d n = [] := by
  intro n
  induction n with
  | zero =>
      simp [cteLevel, cteBase]
  | succ n ih =>
      simp [cteLevel, cteStep, ih]

theorem cteLevel_depth (rels : List StoredRelation) (ids : List String) (d : Nat) :
    ∀ n p, p ∈ cteLevel rels ids d n → p.depth = n + 1 := by
  intro n
  induction n with
  | zero =>
      intro p hp
      simp only [cteLevel, cteBase, List.mem_map] at hp
      obtain ⟨r, -, rfl⟩ := hp
      rfl
  | succ n ih =>
      intro p hp
      simp only [cteLevel, cteStep, List.mem_flatMap] at hp
      obtain ⟨q, hq, hpq⟩ := hp
      by_cases h : q.depth < d
      · simp only [h, if_true, List.mem_map] at hpq
        obtain ⟨r, -, rfl⟩ := hpq
        simp [ih q hq]
      · simp [h] at hpq

theorem cteLevel_depth_le (rels : List StoredRelation) (ids : List String) (d : Nat) :
    ∀ n p, p ∈ cteLevel rels ids d n → p.depth ≤ max 1 d := by
  intro n
  induction n with
  | zero =>
      intro p hp
      simp only [cteLevel, cteBase, List.mem_map] at hp
      obtain ⟨r, -, rfl⟩ := hp
      exact le_max_left 1 d
  | succ n ih =>
      intro p hp
      simp only [cteLevel, cteStep, List.mem_flatMap] at hp
      obtain ⟨q, hq, hpq⟩ := hp
      by_cases h : q.depth < d
      · simp only [h, if_true, List.mem_map] at hpq
        obtain ⟨r, -, rfl⟩ := hpq
        simp only []
        exact le_max_of_le_right h
      · simp [h] at hpq

theorem pairwise_depth_of_const (L : List PathRow) (k : Nat)
    (h : ∀ p ∈ L, p.depth = k) :
    L.Pairwise (fun a b => a.depth ≤ b.depth) := by
  induction L with
  | nil => exact List.Pairwise.nil
  | cons a t ih =>
      refine List.Pairwise.cons ?_ (ih ?_)
      · intro b hb
        rw [h a (List.mem_cons_self a t), h b (List.mem_cons_of_mem a hb)]
      · intro p hp
        exact h p (List.mem_cons_of_mem a hp)

theorem pairwise_flatMap_levels (rels : List StoredRelation) (ids : List String)
    (d : Nat) :
    ∀ l : List Nat, l.Pairwise (· ≤ ·) →
      (l.flatMap (cteLevel rels ids d)).Pairwise (fun a b => a.depth ≤ b.depth) := by
  intro l
  induction l with
  | nil =>
      intro _
      simp
  | cons n t ih =>
      intro hl
      rw [List.pairwise_cons] at hl
      rw [List.flatMap_cons, List.pairwise_append]
      refine ⟨pairwise_depth_of_const _ (n + 1) (cteLevel_depth rels ids d n),
        ih hl.2, ?_⟩
      intro a ha b hb
      rw [List.mem_flatMap] at hb
      obtain ⟨m, hm, hbm⟩ := hb
      rw [cteLevel_depth rels ids d n a ha, cteLevel_depth rels ids d m b hbm]
      exact Nat.succ_le_succ (hl.1 m hm)

theorem range_pairwise_le (n : Nat) : (List.range n).Pairwise (· ≤ ·) := by
  induction n with
  | zero => simp
  | succ n ih =>
      rw [List.range_succ, List.pairwise_append]
      refine ⟨ih, List.pairwise_singleton _ _, ?_⟩
      intro a ha b hb
      rw [List.mem_range] at ha
      rw [List.mem_singleton] at hb
      subst hb
      exact Nat.le_of_lt ha

theorem ctePaths_pairwise (rels : List StoredRelation) (ids : List String) (d : Nat) :
    (ctePaths rels ids d).Pairwise (fun a b => a.depth ≤ b.depth) :=
  pairwise_flatMap_levels rels ids d _ (range_pairwise_le (d + 1))

/-- The join of `rel_depth_query` keeps the path component of each row. -/
theorem joinRow_fst (st : Store) (p : PathRow)
    (x : PathRow × StoredNode × StoredNode)
    (hx : (match findNode st p.source_id, findNode st p.target_id with
           | some e1, some e2 => some (p, e1, e2)
           | _, _ => none) = some x) :
    x.1 = p := by
  rcases h1 : findNode st p.source_id with _ | e1 <;>
    rcases h2 : findNode st p.target_id with _ | e2 <;>
    rw [h1, h2] at hx <;> simp at hx
  rw [← hx]

theorem joinedPaths_pairwise (st : Store) (ids : List String) (d : Nat) :
    (joinedPaths st ids d).Pairwise (fun a b => a.1.depth ≤ b.1.depth) := by
  unfold joinedPaths
  rw [List.pairwise_filterMap]
  refine (ctePaths_pairwise st.relations ids d).imp ?_
  intro a b hab x hx y hy
  rw [joinRow_fst st a x hx, joinRow_fst st b y hy]
  exact hab

/-!  Lemmas about `add_node`. -/

theorem applyData_id (old : StoredNode) (d : NodeData) : (applyData old d).id = d.id :=
  rfl

theorem applyData_applyData (old : StoredNode) (d : NodeData) :
    applyData (applyData old d) d = applyData old d := by
  obtain ⟨i, t, m, lb, pr, em⟩ := d
  cases t <;> cases m <;> cases em <;> rfl

theorem applyData_newFromData (d : NodeData) :
    applyData (newFromData d) d = newFromData d := by
  obtain ⟨i, t, m, lb, pr, em⟩ := d
  cases t <;> cases m <;> cases em <;> rfl

theorem updateFirstNode_append_of_none (l2 : List StoredNode) (d : NodeData) :
    ∀ l1 : List StoredNode, (∀ n ∈ l1, ¬((fun n => n.id == d.id) n = true)) →
      updateFirstNode (l1 ++ l2) d = l1 ++ updateFirstNode l2 d := by
  intro l1
  induction l1 with
  | nil => intro _; rfl
  | cons a t ih =>
      intro h
      have ha : (a.id == d.id) = false := by
        have := h a (List.mem_cons_self a t)
        simpa using this
      simp only [List.cons_append, updateFirstNode, ha, Bool.false_eq_true, if_false,
        List.cons.injEq, true_and]
      exact ih (fun n hn => h n (List.mem_cons_of_mem a hn))

theorem updateFirstNode_idem (d : NodeData) :
    ∀ l : List StoredNode, updateFirstNode (updateFirstNode l d) d = updateFirstNode l d := by
  intro l
  induction l with
  | nil => rfl
  | cons a t ih =>
      by_cases h : (a.id == d.id) = true
      · have h2 : ((applyData a d).id == d.id) = true := by
          rw [applyData_id]
          exact beq_self_eq_true d.id
        simp only [updateFirstNode, h, if_true, h2, applyData_applyData]
      · have h' : (a.id == d.id) = false := by simpa using h
        simp only [updateFirstNode, h', Bool.false_eq_true, if_false, List.cons.injEq,
          true_and]
        exact ih

theorem find?_updateFirstNode (d : NodeData) :
    ∀ l : List StoredNode, ∀ old,
      l.find? (fun n => n.id == d.id) = some old →
      (updateFirstNode l d).find? (fun n => n.id == d.id) = some (applyData old d) := by
  intro l
  induction l with
  | nil => intro old h; simp at h
  | cons a t ih =>
      intro old h
      by_cases ha : (a.id == d.id) = true
      · rw [@List.find?_cons_of_pos _ (fun n => n.id == d.id) a t ha] at h
        injection h with h
        subst h
        have h2 : ((applyData a d).id == d.id) = true := by
          rw [applyData_id]
          exact beq_self_eq_true d.id
        simp only [updateFirstNode, ha, if_true]
        exact @List.find?_cons_of_pos _ (fun n => n.id == d.id) (applyData a d) t h2
      · have ha' : (a.id == d.id) = false := by simpa using ha
        rw [@List.find?_cons_of_neg _ (fun n => n.id == d.id) a t ha] at h
        simp only [updateFirstNode, ha', Bool.false_eq_true, if_false]
        rw [@List.find?_cons_of_neg _ (fun n => n.id == d.id) a (updateFirstNode t d) ha]
        exact ih old h

theorem countP_updateFirstNode (d : NodeData) :
    ∀ l : List StoredNode,
      (updateFirstNode l d).countP (fun n => n.id == d.id)
        = l.countP (fun n => n.id == d.id) := by
  intro l
  induction l with
  | nil => rfl
  | cons a t ih =>
      by_cases h : (a.id == d.id) = true
      · have h2 : ((applyData a d).id == d.id) = true := by
          rw [applyData_id]
          exact beq_self_eq_true d.id
        simp only [updateFirstNode, h, if_true, List.countP_cons, h2, ih]
      · have h' : (a.id == d.id) = false := by simpa using h
        simp only [updateFirstNode, h', Bool.false_eq_true, if_false, List.countP_cons, ih]

theorem add_node_of_found (st : Store) (node : LabelledNode) (old : StoredNode)
    (h : findNode st (nodeDataOf node).id = some old) :
    add_node st node = { st with nodes := updateFirstNode st.nodes (nodeDataOf node) } := by
  unfold add_node
  rw [h]

theorem add_node_of_missing (st : Store) (node : LabelledNode)
    (h : findNode st (nodeDataOf node).id = none) :
    add_node st node
      = { st with nodes := st.nodes ++ [newFromData (nodeDataOf node)] } := by
  unfold add_node
  rw [h]

theorem find?_append_none {α : Type} (p : α → Bool) :
    ∀ l1 l2 : List α, l1.find? p = none → (l1 ++ l2).find? p = l2.find? p := by
  intro l1
  induction l1 with
  | nil => intro l2 _; rfl
  | cons a t ih =>
      intro l2 h
      by_cases ha : p a = true
      · rw [List.find?_cons_of_pos _ ha] at h
        exact absurd h (by simp)
      · have ha' : ¬p a = true := ha
        rw [List.find?_cons_of_neg _ ha'] at h
        rw [List.cons_append, List.find?_cons_of_neg _ ha']
        exact ih l2 h

theorem updateFirstRel_length (r : Relation) :
    ∀ l : List StoredRelation, (updateFirstRel l r).length = l.length := by
  intro l
  induction l with
  | nil => rfl
  | cons a t ih =>
      by_cases h : relMatchKey r a = true
      · simp [updateFirstRel, h]
      · have h' : relMatchKey r a = false := by simpa using h
        simp [updateFirstRel, h', ih]

/-!  Lemmas about `vector_search`. -/

/-- Both branches of the result conversion attach `score = 1 - distance`. -/
theorem vsRowToNode_score (n : StoredNode) (d : Rat) :
    (vsRowToNode n d).score = some (1 - d) := by
  unfold vsRowToNode
  by_cases h : (textTruthy n.text && n.name.isNone) = true
  · simp [h, OutNode.score]
  · have h' : (textTruthy n.text && n.name.isNone) = false := Bool.eq_false_iff.mpr h
    simp [h', OutNode.score]

/-- When every row in the window carries a distance, the result loop succeeds
and the output is the row-by-row conversion. -/
theorem toScored_ok : ∀ l : List (StoredNode × Option Rat),
    (∀ x ∈ l, x.2.isSome = true) →
    ∃ rows : List (StoredNode × Rat),
      l = rows.map (fun p => (p.1, some p.2))
      ∧ toScored l = .ok (rows.map (fun p => vsRowToNode p.1 p.2)) := by
  intro l
  induction l with
  | nil =>
      intro _
      exact ⟨[], rfl, rfl⟩
  | cons x t ih =>
      intro h
      obtain ⟨n, o⟩ := x
      cases o with
      | none =>
          exact absurd (h (n, none) (List.mem_cons_self _ _)) (by simp)
      | some d =>
          obtain ⟨rows, hmap, hok⟩ := ih (fun y hy => h y (List.mem_cons_of_mem _ hy))
          refine ⟨(n, d) :: rows, ?_, ?_⟩
          · rw [List.map_cons, ← hmap]
          · show (toScored t).map (fun l => vsRowToNode n d :: l)
              = .ok (((n, d) :: rows).map (fun p => vsRowToNode p.1 p.2))
            rw [hok]
            rfl

/-!  Claim theorems. -/

/-- C2: a relation write whose source or target does not resolve to a stored
node fails with the referential-integrity error rather than writing anything;
when both endpoints exist, the write matches an existing row on
`(source_id, target_id, label)` and overwrites it in place (no new row), and
otherwise appends a single new row. -/
theorem claim_C2 : ∀ (st : Store) (r : Relation),
    ((findNode st r.source_id = none ∨ findNode st r.target_id = none) ↔
      add_relation st r = .error "Source or target node not found for relation")
    ∧ (∀ st', add_relation st r = .ok st' →
        ((findNode st r.source_id).isSome ∧ (findNode st r.target_id).isSome)
        ∧ st'.nodes = st.nodes
        ∧ (st.relations.find? (relMatchKey r) = none →
            st'.relations = st.relations ++
              [{ id := st.nextRelId, label := r.label, source_id := r.source_id,
                 target_id := r.target_id, properties := r.properties }])
        ∧ (∀ er, st.relations.find? (relMatchKey r) = some er →
            st'.relations = updateFirstRel st.relations r
            ∧ st'.relations.length = st.relations.length)) := by
  intro st r
  have hcond : ((findNode st r.source_id).isNone || (findNode st r.target_id).isNone) = true
      ↔ (findNode st r.source_id = none ∨ findNode st r.target_id = none) := by
    rw [Bool.or_eq_true, Option.isNone_iff_eq_none, Option.isNone_iff_eq_none]
  by_cases hc : ((findNode st r.source_id).isNone || (findNode st r.target_id).isNone) = true
  · have herr : add_relation st r
        = .error "Source or target node not found for relation" := by
      unfold add_relation
      rw [if_pos hc]
    refine ⟨⟨fun _ => herr, fun _ => hcond.mp hc⟩, ?_⟩
    intro st' hok
    rw [herr] at hok
    exact absurd hok (by simp)
  · have hc' : ((findNode st r.source_id).isNone || (findNode st r.target_id).isNone) = false :=
      Bool.eq_false_iff.mpr hc
    have hsome : ∀ (o : Option StoredNode), o.isNone = false → o.isSome = true := by
      intro o ho
      cases o with
      | none => simp at ho
      | some a => rfl
    have hboth : (findNode st r.source_id).isSome ∧ (findNode st r.target_id).isSome := by
      rw [Bool.or_eq_false_iff] at hc'
      exact ⟨hsome _ hc'.1, hsome _ hc'.2⟩
    constructor
    · constructor
      · intro hmiss
        exact absurd (hcond.mpr hmiss) (by simp [hc'])
      · intro herr
        unfold add_relation at herr
        rw [if_neg (by simp [hc'])] at herr
        by_cases hf : (st.relations.find? (relMatchKey r)).isSome = true
        · rw [if_pos hf] at herr
          exact absurd herr (by simp)
        · rw [if_neg hf] at herr
          exact absurd herr (by simp)
    · intro st' hok
      unfold add_relation at hok
      rw [if_neg (by simp [hc'])] at hok
      refine ⟨hboth, ?_, ?_, ?_⟩
      · by_cases hf : (st.relations.find? (relMatchKey r)).isSome = true
        · rw [if_pos hf] at hok
          injection hok with hok
          rw [← hok]
        · rw [if_neg hf] at hok
          injection hok with hok
          rw [← hok]
      · intro hnone
        have hf : (st.relations.find? (relMatchKey r)).isSome = false := by
          rw [hnone]
          rfl
        rw [if_neg (by simp [hf])] at hok
        injection hok with hok
        rw [← hok]
      · intro er hsome
        have hf : (st.relations.find? (relMatchKey r)).isSome = true := by
          rw [hsome]
          rfl
        rw [if_pos hf] at hok
        injection hok with hok
        rw [← hok]
        exact ⟨rfl, updateFirstRel_length r st.relations⟩

/-- A store holding only the endpoint nodes A and B. -/
def stAB : Store :=
  { nodes := [{ id := "A", name := some "A" }, { id := "B", name := some "B" }] }

/-- The resulting store after inserting the relation A→B into `stAB`. -/
def stABrel : Store :=
  { nodes := [{ id := "A", name := some "A" }, { id := "B", name := some "B" }],
    relations := [{ id := 1, label := "knows", source_id := "A", target_id := "B" }],
    nextRelId := 2 }

/-- C2 witness: a dangling target is rejected with the referential-integrity
error, and a write with both endpoints present inserts exactly one row. -/
theorem claim_C2_witness :
    add_relation stAB { label := "knows", source_id := "A", target_id := "missing" }
      = .error "Source or target node not found for relation"
    ∧ ((findNode stAB "A").isSome ∧ (findNode stAB "B").isSome) := by
  constructor
  · exact (claim_C2 stAB { label := "knows", source_id := "A", target_id := "missing" }).1.mp
      (by decide)
  · exact (((claim_C2 stAB { label := "knows", source_id := "A", target_id := "B" }).2
      stABrel (by rfl)).1)

/-- C3: over the chain A→B→C→D (labels r1, r2, r3), bounded traversal from
seed {A} returns exactly (A,r1,B) at depth 1, then (B,r2,C), then (C,r3,D),
in ascending-depth order; in general the CTE seeds depth-1 paths from the
relations whose source is a seed, extends a path only while its depth is
below the bound, keeps the rows ordered by ascending depth, and truncates the
output to the limit. -/
theorem claim_C3 :
    ((rel_depth_query stChain ["A"] 1 100).map
        (fun r => (r.e1_id, r.rel_label, r.e2_id)) = [("A", "r1", "B")]
      ∧ (rel_depth_query stChain ["A"] 2 100).map
          (fun r => (r.e1_id, r.rel_label, r.e2_id))
          = [("A", "r1", "B"), ("B", "r2", "C")]
      ∧ (rel_depth_query stChain ["A"] 3 100).map
          (fun r => (r.e1_id, r.rel_label, r.e2_id))
          = [("A", "r1", "B"), ("B", "r2", "C"), ("C", "r3", "D")])
    ∧ (∀ rels ids d p, p ∈ ctePaths rels ids d → p.depth = 1 →
        ∃ r, r ∈ rels ∧ ids.contains r.source_id = true ∧
          p = { depth := 1, source_id := r.source_id, target_id := r.target_id,
                label := r.label, properties := r.properties })
    ∧ (∀ rels ids d p, p ∈ ctePaths rels ids d → p.depth ≤ max 1 d)
    ∧ (∀ st ids d lim,
        ((joinedPaths st ids d).take lim).Pairwise (fun a b => a.1.depth ≤ b.1.depth))
    ∧ (∀ st ids d lim, (rel_depth_query st ids d lim).length ≤ lim) := by
  refine ⟨⟨by decide, by decide, by decide⟩, ?_, ?_, ?_, ?_⟩
  · intro rels ids d p hp hd
    unfold ctePaths at hp
    rw [List.mem_flatMap] at hp
    obtain ⟨n, -, hpn⟩ := hp
    have hn : n + 1 = 1 := by rw [← cteLevel_depth rels ids d n p hpn, hd]
    have hn0 : n = 0 := by omega
    subst hn0
    simp only [cteLevel, cteBase, List.mem_map] at hpn
    obtain ⟨r, hr, rfl⟩ := hpn
    rw [List.mem_filter] at hr
    exact ⟨r, hr.1, hr.2, rfl⟩
  · intro rels ids d p hp
    unfold ctePaths at hp
    rw [List.mem_flatMap] at hp
    obtain ⟨n, -, hpn⟩ := hp
    exact cteLevel_depth_le rels ids d n p hpn
  · intro st ids d lim
    exact (joinedPaths_pairwise st ids d).sublist (List.take_sublist lim _)
  · intro st ids d lim
    unfold rel_depth_query
    rw [List.length_map]
    exact List.length_take_le lim _

/-- C3 witness: the general conjuncts evaluated on the concrete chain. -/
theorem claim_C3_witness :
    (∃ r, r ∈ stChain.relations ∧ ["A"].contains r.source_id = true ∧
      ({ depth := 1, source_id := "A", target_id := "B", label := "r1",
         properties := [] } : PathRow)
        = { depth := 1, source_id := r.source_id, target_id := r.target_id,
            label := r.label, properties := r.properties })
    ∧ ({ depth := 1, source_id := "A", target_id := "B", label := "r1",
         properties := [] } : PathRow).depth ≤ max 1 3 :=
  ⟨claim_C3.2.1 stChain.relations ["A"] 3 _ (by decide) rfl,
   claim_C3.2.2.1 stChain.relations ["A"] 3 _ (by decide)⟩

/-- C4 counterexample: with seed {A} over the chain, `max_depth = 0` does not
return an empty result — the CTE's base branch is not guarded by the depth
bound, so the depth-1 row (A,r1,B) is still produced. -/
theorem claim_C4_cx :
    (rel_depth_query stChain ["A"] 0 100).map
        (fun r => (r.e1_id, r.rel_label, r.e2_id)) = [("A", "r1", "B")]
    ∧ rel_depth_query stChain ["A"] 0 100 ≠ [] := by
  refine ⟨by decide, by decide⟩

theorem cteStep_base_one (rels : List StoredRelation) (ids : List String) :
    cteStep rels 1 (cteBase rels ids) = [] := by
  unfold cteStep
  rw [List.flatMap_eq_nil_iff]
  intro p hp
  have hd : p.depth = 1 := cteLevel_depth rels ids 1 0 p hp
  rw [hd]
  simp

/-- C4 (amended): traversal with an empty seed set returns an empty result at
every depth, but `max_depth = 0` does not — it behaves exactly like
`max_depth = 1`, returning the unguarded depth-1 seed expansion. -/
theorem claim_C4 :
    (∀ st d lim, rel_depth_query st ([] : List String) d lim = [])
    ∧ (∀ st ids lim, rel_depth_query st ids 0 lim = rel_depth_query st ids 1 lim) := by
  constructor
  · intro st d lim
    unfold rel_depth_query joinedPaths ctePaths
    rw [List.flatMap_eq_nil_iff.mpr]
    · simp
    · intro n _
      exact cteLevel_nil_ids st.relations d n
  · intro st ids lim
    unfold rel_depth_query joinedPaths
    have h : ctePaths st.relations ids 0 = ctePaths st.relations ids 1 := by
      unfold ctePaths
      have h0 : List.range 1 = [0] := rfl
      have h1 : List.range 2 = [0, 1] := rfl
      rw [h0, h1]
      simp only [List.flatMap_cons, List.flatMap_nil, List.append_nil]
      have hstep : cteLevel st.relations ids 1 1 = [] :=
        cteStep_base_one st.relations ids
      rw [hstep]
      have hbase : cteLevel st.relations ids 0 0 = cteLevel st.relations ids 1 0 := rfl
      rw [hbase]
      simp
    rw [h]

/-- C1 (amended): node upsert is idempotent — re-adding the same node leaves
the store unchanged and exactly one row carries the node's id — and on an
update the nullable fields (`text`, `name`, `embedding`) overwrite only when
non-null on the incoming node; `label` and the `properties` map, however,
always overwrite, so an incoming empty properties map clears the stored
properties rather than preserving them. -/
theorem claim_C1 : ∀ (st : Store) (node : LabelledNode),
    add_node (add_node st node) node = add_node st node
    ∧ (st.nodes.countP (fun m => m.id == (nodeDataOf node).id) ≤ 1 →
        (add_node st node).nodes.countP (fun m => m.id == (nodeDataOf node).id) = 1)
    ∧ (∀ old, findNode st (nodeDataOf node).id = some old →
        findNode (add_node st node) (nodeDataOf node).id
          = some (applyData old (nodeDataOf node))
        ∧ ((nodeDataOf node).text = none →
            (applyData old (nodeDataOf node)).text = old.text)
        ∧ ((nodeDataOf node).name = none →
            (applyData old (nodeDataOf node)).name = old.name)
        ∧ ((nodeDataOf node).embedding = none →
            (applyData old (nodeDataOf node)).embedding = old.embedding)
        ∧ (applyData old (nodeDataOf node)).properties = (nodeDataOf node).properties
        ∧ (applyData old (nodeDataOf node)).label = (nodeDataOf node).label) := by
  intro st node
  refine ⟨?_, ?_, ?_⟩
  · cases h : findNode st (nodeDataOf node).id with
    | none =>
        rw [add_node_of_missing st node h]
        have hnew : ((newFromData (nodeDataOf node)).id == (nodeDataOf node).id) = true :=
          beq_self_eq_true (nodeDataOf node).id
        have hfind2 : findNode
            { st with nodes := st.nodes ++ [newFromData (nodeDataOf node)] }
            (nodeDataOf node).id = some (newFromData (nodeDataOf node)) := by
          unfold findNode
          unfold findNode at h
          rw [find?_append_none _ st.nodes _ h]
          exact @List.find?_cons_of_pos _ (fun n => n.id == (nodeDataOf node).id)
            (newFromData (nodeDataOf node)) [] hnew
        rw [add_node_of_found _ node _ hfind2]
        unfold findNode at h
        congr 1
        rw [updateFirstNode_append_of_none _ _ st.nodes (List.find?_eq_none.mp h)]
        have hupd : updateFirstNode [newFromData (nodeDataOf node)] (nodeDataOf node)
            = [applyData (newFromData (nodeDataOf node)) (nodeDataOf node)] := by
          simp only [updateFirstNode, hnew, if_true]
        rw [hupd, applyData_newFromData]
    | some old =>
        rw [add_node_of_found st node old h]
        unfold findNode at h
        have hfind2 : findNode
            { st with nodes := updateFirstNode st.nodes (nodeDataOf node) }
            (nodeDataOf node).id = some (applyData old (nodeDataOf node)) := by
          unfold findNode
          exact find?_updateFirstNode (nodeDataOf node) st.nodes old h
        rw [add_node_of_found _ node _ hfind2]
        congr 1
        exact updateFirstNode_idem (nodeDataOf node) st.nodes
  · intro hle
    cases h : findNode st (nodeDataOf node).id with
    | none =>
        rw [add_node_of_missing st node h]
        unfold findNode at h
        show (st.nodes ++ [newFromData (nodeDataOf node)]).countP _ = 1
        rw [List.countP_append]
        rw [List.countP_eq_zero.mpr (List.find?_eq_none.mp h)]
        have hnew : ((newFromData (nodeDataOf node)).id == (nodeDataOf node).id) = true :=
          beq_self_eq_true (nodeDataOf node).id
        simp [List.countP_cons, hnew]
    | some old =>
        rw [add_node_of_found st node old h]
        unfold findNode at h
        show (updateFirstNode st.nodes (nodeDataOf node)).countP _ = 1
        rw [countP_updateFirstNode]
        have hpos : 0 < st.nodes.countP (fun m => m.id == (nodeDataOf node).id) :=
          List.countP_pos_iff.mpr ⟨old, List.mem_of_find?_eq_some h,
            @List.find?_some _ (fun n => n.id == (nodeDataOf node).id) old st.nodes h⟩
        omega
  · intro old h
    refine ⟨?_, ?_, ?_, ?_, rfl, rfl⟩
    · rw [add_node_of_found st node old h]
      unfold findNode at h
      unfold findNode
      exact find?_updateFirstNode (nodeDataOf node) st.nodes old h
    · intro ht
      simp [applyData, ht]
    · intro hn
      simp [applyData, hn]
    · intro he
      simp [applyData, he]

/-- The node of the C1 counterexample, first added with a non-empty property
map. -/
def nodeP : LabelledNode := .entity "A" "node" [("p", .str "x")] none

/-- The same node re-added with its property map empty. -/
def nodeEmptyP : LabelledNode := .entity "A" "node" [] none

/-- C1 counterexample: after upserting the node with properties `{"p": "x"}`
and then upserting the same id with an empty properties map, the stored
properties are cleared — the claim's "an empty properties map is not cleared
in storage" fails because `node.properties or {}` is never `None` and so
always overwrites. -/
theorem claim_C1_cx :
    (add_node (add_node {} nodeP) nodeEmptyP).nodes.map StoredNode.properties = [[]]
    ∧ (add_node {} nodeP).nodes.map StoredNode.properties = [[("p", .str "x")]]
    ∧ ¬(add_node (add_node {} nodeP) nodeEmptyP).nodes.map StoredNode.properties
        = (add_node {} nodeP).nodes.map StoredNode.properties := by
  refine ⟨by decide, by decide, by decide⟩

/-- C1 witness: the upsert count and update-shape conjuncts evaluated on a
concrete store. -/
theorem claim_C1_witness :
    (add_node ({} : Store) nodeP).nodes.countP
        (fun m => m.id == (nodeDataOf nodeP).id) = 1
    ∧ findNode (add_node (add_node ({} : Store) nodeP) nodeEmptyP)
        (nodeDataOf nodeEmptyP).id
        = some (applyData
            { id := "node:A", name := some "A", label := "node",
              properties := [("p", .str "x")] } (nodeDataOf nodeEmptyP)) :=
  ⟨(claim_C1 {} nodeP).2.1 (by decide),
   ((claim_C1 (add_node {} nodeP) nodeEmptyP).2.2 _ (by decide)).1⟩

/-- C5: deleting a node first removes every relation in which the id appears
as source or target and then the node row itself; all other nodes and all
relations not referencing the id survive, and deleting an id that is not
stored (and hence, by referential integrity, not referenced) is a no-op. -/
theorem claim_C5 : ∀ st i,
    ((∀ r, r ∈ (delete_node st i).relations ↔
        (r ∈ st.relations ∧ r.source_id ≠ i ∧ r.target_id ≠ i))
     ∧ (∀ n, n ∈ (delete_node st i).nodes ↔ (n ∈ st.nodes ∧ n.id ≠ i)))
    ∧ ((∀ n ∈ st.nodes, n.id ≠ i) →
        (∀ r ∈ st.relations, r.source_id ≠ i ∧ r.target_id ≠ i) →
        delete_node st i = st) := by
  intro st i
  refine ⟨⟨?_, ?_⟩, ?_⟩
  · intro r
    simp [delete_node, List.mem_filter, not_or]
  · intro n
    simp [delete_node, List.mem_filter]
  · intro hn hr
    obtain ⟨ns, rs, k⟩ := st
    simp only [delete_node]
    congr 1
    · rw [List.filter_eq_self]
      intro n hmem
      simpa using hn n hmem
    · rw [List.filter_eq_self]
      intro r hmem
      have := hr r hmem
      simp [not_or]
      exact this

/-- C5 witness: deleting an id that is neither stored nor referenced leaves
the store unchanged, and after deleting "A" from the chain no relation or
node mentions "A" while "B" survives. -/
theorem claim_C5_witness :
    delete_node stRowId "zzz" = stRowId
    ∧ (({ id := 1, label := "r1", source_id := "A", target_id := "B" } : StoredRelation)
          ∈ (delete_node stChain "A").relations ↔ False)
    ∧ (({ id := "B", name := some "B" } : StoredNode) ∈ (delete_node stChain "A").nodes
        ↔ (({ id := "B", name := some "B" } : StoredNode) ∈ stChain.nodes ∧ "B" ≠ "A")) := by
  refine ⟨(claim_C5 stRowId "zzz").2 (by decide) (by decide), ?_, ?_⟩
  · rw [((claim_C5 stChain "A").1.1 _)]
    simp
  · exact (claim_C5 stChain "A").1.2 _

/-- C9: a property map read back from storage contains exactly the keys whose
stored value is Python-truthy — `null`, the empty string, the empty
collection, the number 0 and the boolean `false` are all dropped — and the
spec's concrete example reads back with only the `"b"` entry. -/
theorem claim_C9 :
    (∀ d kv, kv ∈ remove_empty_values d ↔ (kv ∈ d ∧ kv.2.truthy = true))
    ∧ (∀ v : PValue, v.truthy = false ↔
        (v = .null ∨ v = .str "" ∨ v = .num 0 ∨ v = .bool false ∨ v = .arr .nil))
    ∧ get stProps [] ["n"]
        = [.entity (some "n") "node" [("b", .str "x")] none] := by
  refine ⟨?_, ?_, by decide⟩
  · intro d kv
    simp [remove_empty_values, List.mem_filter]
  · intro v
    cases v with
    | null => simp [PValue.truthy]
    | str s =>
        simp only [PValue.truthy, Bool.not_eq_false']
        rw [show (PValue.str s = PValue.null ∨ PValue.str s = PValue.str "" ∨
            PValue.str s = PValue.num 0 ∨ PValue.str s = PValue.bool false ∨
            PValue.str s = PValue.arr .nil) ↔ s = "" by
          simp]
        exact String.isEmpty_iff s
    | num n =>
        simp only [PValue.truthy, bne_eq_false_iff_eq]
        simp
    | bool b =>
        cases b <;> simp [PValue.truthy]
    | arr xs =>
        cases xs <;> simp [PValue.truthy, PList.isNil]

/-- C6 (amended): the only up-front validation `vector_search` performs is
the missing-query-vector check; a non-positive `top_k` and a query-vector
dimension mismatch are not validated before storage access. -/
theorem claim_C6 : ∀ (dist : List Rat → List Rat → Rat) (st : Store)
    (q : VectorStoreQuery) (ids : Option (List String)),
    q.query_embedding = none →
    vector_search dist st q ids
      = .error "Query embedding is required for vector search" := by
  intro dist st q ids h
  unfold vector_search
  rw [h]

/-- C6 counterexample: with `top_k = 0` the search is not rejected — the
Python truthiness test `if query.similarity_top_k:` skips ordering and
limiting entirely and every stored row comes back; likewise a query vector of
the wrong dimension (3 against a 2-dimensional store) is not rejected. -/
theorem claim_C6_cx :
    (∃ l, vector_search unitCosDist stVec
        { query_embedding := some [1, 0], similarity_top_k := some 0 } none = .ok l
      ∧ l.length = 2)
    ∧ (∃ l, vector_search unitCosDist stVec
        { query_embedding := some [1, 0, 0], similarity_top_k := some 0 } none = .ok l
      ∧ l.length = 2) :=
  ⟨⟨_, rfl, rfl⟩, ⟨_, rfl, rfl⟩⟩

/-- C6 witness: the missing-vector validation evaluated on a concrete
query. -/
theorem claim_C6_witness :
    vector_search unitCosDist stVec
        { query_embedding := none, similarity_top_k := some 5 } none
      = .error "Query embedding is required for vector search" :=
  claim_C6 unitCosDist stVec
    { query_embedding := none, similarity_top_k := some 5 } none rfl

/-- C7 (amended): for a valid vector-search query whose scoped rows all carry
a stored embedding, the result is the `top_k` head of the full ranking of the
scoped rows, ascending by engine distance (equivalently descending by
similarity), each result carrying `similarity = 1 - distance`: exactly
`min top_k |scope|` rows come back, and together with the omitted rows they
permute the whole scope while every returned distance is at most every
omitted row's distance.  Rows without a stored embedding are not excluded,
however: their `NULL` distance sorts last, and one falling inside the window
makes the call fail (see the counterexample). -/
theorem claim_C7 : ∀ (dist : List Rat → List Rat → Rat) (st : Store)
    (qe : List Rat) (k : Int) (ids : Option (List String)),
    0 < k →
    (∀ n ∈ scopeBase st ids, n.embedding.isSome = true) →
    ∃ rows : List (StoredNode × Rat),
      vector_search dist st { query_embedding := some qe, similarity_top_k := some k } ids
        = .ok (rows.map (fun p => vsRowToNode p.1 p.2))
      ∧ rows.length ≤ k.toNat
      ∧ rows.Pairwise (fun a b => a.2 ≤ b.2)
      ∧ (∀ p ∈ rows, p.1 ∈ scopeBase st ids
          ∧ ∃ e, p.1.embedding = some e ∧ p.2 = dist e qe)
      ∧ (∀ (n : StoredNode) (d : Rat), (vsRowToNode n d).score = some (1 - d))
      ∧ (rows.map (fun p => vsRowToNode p.1 p.2)).Pairwise
          (fun a b => b.score.getD 0 ≤ a.score.getD 0)
      ∧ rows.length = min k.toNat (scopeBase st ids).length
      ∧ ∃ rest : List (StoredNode × Option Rat),
          List.Perm (rows.map (fun p => (p.1, some p.2)) ++ rest)
            (scopeRows dist st qe ids)
          ∧ ∀ p ∈ rows, ∀ x ∈ rest, ∀ dx, x.2 = some dx → p.2 ≤ dx := by
  intro dist st qe k ids hk hemb
  have hne : ¬(k = 0) := by omega
  have hnlt : ¬(k < 0) := by omega
  have hvs : vector_search dist st { query_embedding := some qe, similarity_top_k := some k } ids
      = (if k = 0 then toScored (scopeRows dist st qe ids)
         else if k < 0 then .error "LIMIT must not be negative"
         else toScored ((List.insertionSort distLe (scopeRows dist st qe ids)).take
            k.toNat)) := rfl
  rw [if_neg hne, if_neg hnlt] at hvs
  have hall : ∀ x ∈ scopeRows dist st qe ids, x.2.isSome = true := by
    intro x hx
    unfold scopeRows at hx
    rw [List.mem_map] at hx
    obtain ⟨n, hn, rfl⟩ := hx
    have hs := hemb n hn
    cases he : n.embedding with
    | none =>
        rw [he] at hs
        simp at hs
    | some e =>
        rfl
  have hmem_taken : ∀ x ∈ (List.insertionSort distLe (scopeRows dist st qe ids)).take k.toNat,
      x ∈ scopeRows dist st qe ids := by
    intro x hx
    have hx2 : x ∈ List.insertionSort distLe (scopeRows dist st qe ids) :=
      (List.take_sublist _ _).subset hx
    exact (List.perm_insertionSort distLe _).mem_iff.mp hx2
  obtain ⟨rows, hmap, hok⟩ :=
    toScored_ok _ (fun x hx => hall x (hmem_taken x hx))
  have hsorted : ((List.insertionSort distLe (scopeRows dist st qe ids)).take k.toNat).Pairwise
      distLe :=
    (List.sorted_insertionSort distLe _).sublist (List.take_sublist _ _)
  have hrows_pw : rows.Pairwise (fun a b => a.2 ≤ b.2) := by
    rw [hmap] at hsorted
    rw [List.pairwise_map] at hsorted
    exact hsorted.imp (fun h => h)
  refine ⟨rows, by rw [hvs, hok], ?_, hrows_pw, ?_, vsRowToNode_score, ?_, ?_, ?_⟩
  · have hlen : rows.length
        = ((List.insertionSort distLe (scopeRows dist st qe ids)).take k.toNat).length := by
      rw [hmap, List.length_map]
    rw [hlen]
    exact List.length_take_le _ _
  · intro p hp
    have hpt : (p.1, some p.2) ∈
        (List.insertionSort distLe (scopeRows dist st qe ids)).take k.toNat := by
      rw [hmap]
      exact List.mem_map_of_mem _ hp
    have hscope := hmem_taken _ hpt
    unfold scopeRows at hscope
    rw [List.mem_map] at hscope
    obtain ⟨n, hn, heq⟩ := hscope
    have h1 : n = p.1 := congrArg Prod.fst heq
    have h2 : n.embedding.map (fun e => dist e qe) = some p.2 :=
      congrArg Prod.snd heq
    rw [Option.map_eq_some'] at h2
    obtain ⟨e, he, hde⟩ := h2
    subst h1
    exact ⟨hn, e, he, hde.symm⟩
  · rw [List.pairwise_map]
    refine hrows_pw.imp ?_
    intro a b hab
    rw [vsRowToNode_score, vsRowToNode_score]
    simp only [Option.getD_some]
    exact sub_le_sub_left hab 1
  · have h1 : rows.length
        = ((List.insertionSort distLe (scopeRows dist st qe ids)).take k.toNat).length := by
      rw [hmap, List.length_map]
    have hlenS : (List.insertionSort distLe (scopeRows dist st qe ids)).length
        = (scopeRows dist st qe ids).length :=
      (List.perm_insertionSort distLe _).length_eq
    rw [h1, List.length_take, hlenS]
    show min k.toNat (scopeRows dist st qe ids).length = _
    unfold scopeRows
    rw [List.length_map]
  · refine ⟨(List.insertionSort distLe (scopeRows dist st qe ids)).drop k.toNat, ?_, ?_⟩
    · rw [← hmap, List.take_append_drop]
      exact List.perm_insertionSort distLe _
    · intro p hp x hx dx hdx
      have hpt : (p.1, some p.2) ∈
          (List.insertionSort distLe (scopeRows dist st qe ids)).take k.toNat := by
        rw [hmap]
        exact List.mem_map_of_mem _ hp
      have hS : (List.take k.toNat (List.insertionSort distLe (scopeRows dist st qe ids))
          ++ List.drop k.toNat (List.insertionSort distLe (scopeRows dist st qe ids))).Pairwise
          distLe := by
        rw [List.take_append_drop]
        exact List.sorted_insertionSort distLe (scopeRows dist st qe ids)
      have hsplit := List.pairwise_append.mp hS
      have hd := hsplit.2.2 _ hpt x hx
      obtain ⟨x1, x2⟩ := x
      subst hdx
      exact hd

/-- C7 counterexample: the claim requires nodes without a stored embedding to
be excluded from the ranking, but a store whose only node lacks an embedding
makes a valid `top_k = 1` search fail with the `1.0 - None` type error instead
of returning an empty ranking. -/
theorem claim_C7_cx :
    vector_search unitCosDist stNoEmb
        { query_embedding := some [1, 0], similarity_top_k := some 1 } none
      = .error "unsupported operand types for subtraction: float and NoneType" := rfl

/-- C7 witness: the ranking contract evaluated with `top_k = 1` over the
two-node unit-embedding store, where the window genuinely selects: exactly
one of the two scoped rows is returned and its distance is at most the
omitted row's distance. -/
theorem claim_C7_witness :
    0 < (1 : Int)
    ∧ (∀ n ∈ scopeBase stVec none, n.embedding.isSome = true)
    ∧ ∃ rows : List (StoredNode × Rat),
        vector_search unitCosDist stVec
            { query_embedding := some [1, 0], similarity_top_k := some 1 } none
          = .ok (rows.map (fun p => vsRowToNode p.1 p.2))
        ∧ rows.length ≤ (1 : Int).toNat
        ∧ rows.Pairwise (fun a b => a.2 ≤ b.2)
        ∧ (∀ p ∈ rows, p.1 ∈ scopeBase stVec none
            ∧ ∃ e, p.1.embedding = some e ∧ p.2 = unitCosDist e [1, 0])
        ∧ (∀ (n : StoredNode) (d : Rat), (vsRowToNode n d).score = some (1 - d))
        ∧ (rows.map (fun p => vsRowToNode p.1 p.2)).Pairwise
            (fun a b => b.score.getD 0 ≤ a.score.getD 0)
        ∧ rows.length = min (1 : Int).toNat (scopeBase stVec none).length
        ∧ ∃ rest : List (StoredNode × Option Rat),
            List.Perm (rows.map (fun p => (p.1, some p.2)) ++ rest)
              (scopeRows unitCosDist stVec [1, 0] none)
            ∧ ∀ p ∈ rows, ∀ x ∈ rest, ∀ dx, x.2 = some dx → p.2 ≤ dx :=
  ⟨by decide, by decide,
   claim_C7 unitCosDist stVec [1, 0] 1 none (by decide) (by decide)⟩

/-- C8 (amended): on `get` and on `vector_search` a stored row is returned as
a chunk node iff its `text` is non-empty and its `name` is NULL, and as an
entity node otherwise; `get_triplets`, however, rebuilds both endpoints as
entity nodes unconditionally, even for rows meeting the chunk criteria. -/
theorem claim_C8 :
    (∀ n : StoredNode,
      (getRowToNode n).isChunk = (textTruthy n.text && n.name.isNone))
    ∧ (∀ (n : StoredNode) (d : Rat),
        (vsRowToNode n d).isChunk = (textTruthy n.text && n.name.isNone))
    ∧ (∀ st en rn props ids t, t ∈ get_triplets st en rn props ids →
        t.1.isEntity = true ∧ t.2.2.isEntity = true) := by
  refine ⟨?_, ?_, ?_⟩
  · intro n
    by_cases h : (textTruthy n.text && n.name.isNone) = true
    · simp [getRowToNode, h, OutNode.isChunk]
    · have h' : (textTruthy n.text && n.name.isNone) = false := Bool.eq_false_iff.mpr h
      simp [getRowToNode, h', OutNode.isChunk]
  · intro n d
    by_cases h : (textTruthy n.text && n.name.isNone) = true
    · simp [vsRowToNode, h, OutNode.isChunk]
    · have h' : (textTruthy n.text && n.name.isNone) = false := Bool.eq_false_iff.mpr h
      simp [vsRowToNode, h', OutNode.isChunk]
  · intro st en rn props ids t ht
    unfold get_triplets at ht
    by_cases hg : (ids.isEmpty && props.isEmpty && en.isEmpty && rn.isEmpty) = true
    · rw [if_pos hg] at ht
      simp at ht
    · rw [if_neg hg] at ht
      rw [List.mem_filterMap] at ht
      obtain ⟨r, -, hr⟩ := ht
      rcases h1 : findNode st r.source_id with _ | s <;>
        rcases h2 : findNode st r.target_id with _ | s2 <;>
        rw [h1, h2] at hr <;> simp at hr
      rw [← hr]
      exact ⟨rfl, rfl⟩

/-- C8 counterexample: the stored row "ch" meets the chunk criteria (its text
is non-empty, its name NULL) and `get` does return it as a chunk, but
`get_triplets` returns it as an entity node — the classification is not
preserved on that read path. -/
theorem claim_C8_cx :
    (textTruthy (some "some text") && (none : Option String).isNone) = true
    ∧ (get stChunkRel [] ["ch"]).map OutNode.isChunk = [true]
    ∧ (get_triplets stChunkRel [] [] [] ["ch"]).map
        (fun t => (t.1.isChunk, t.1.isEntity)) = [(false, true)] := by
  refine ⟨by decide, by decide, by decide⟩

/-- C8 witness: the entity-only endpoint construction of `get_triplets`
evaluated on a concrete triplet. -/
theorem claim_C8_witness :
    (OutNode.entity none "node" [] none).isEntity = true
    ∧ (OutNode.entity (some "B") "node" [] none).isEntity = true := by
  have h := claim_C8.2.2 stChunkRel [] [] [] ["ch"]
    (OutNode.entity none "node" [] none,
     { label := "rel", source_id := "node:", target_id := "node:B", properties := [] },
     OutNode.entity (some "B") "node" [] none) (by decide)
  exact ⟨h.1, h.2⟩

/-- C10: on the read paths an entity node is rebuilt from the stored name,
label and stripped properties only — the stored id column is not passed
through, the reported id is the `(label, name)` derivation, and it can differ
from the id the row is stored under (also in the endpoint ids embedded in
relations returned by `get_triplets`). -/
theorem claim_C10 :
    (∀ n : StoredNode, (textTruthy n.text && n.name.isNone) = false →
        getRowToNode n = .entity n.name n.label (remove_empty_values n.properties) none
        ∧ (getRowToNode n).idOf = entityId n.label n.name)
    ∧ (get stRowId [] [] = [.entity (some "Alice") "person" [] none]
       ∧ (get stRowId [] []).map OutNode.idOf = ["person:Alice"]
       ∧ stRowId.nodes.map StoredNode.id = ["row-7"]
       ∧ ("person:Alice" : String) ≠ "row-7")
    ∧ ((get_triplets stRowId2 ["Alice"] [] [] []).map
          (fun t => (t.1.idOf, t.2.1.source_id, t.2.1.target_id))
          = [("person:Alice", "person:Alice", "person:Bob")]
       ∧ stRowId2.relations.map (fun r => (r.source_id, r.target_id))
          = [("row-7", "row-8")]) := by
  refine ⟨?_, ⟨by decide, by decide, by decide, by decide⟩, by decide, by decide⟩
  intro n h
  constructor
  · simp [getRowToNode, h]
  · simp [getRowToNode, h, OutNode.idOf]

/-- C10 witness: the entity construction evaluated on the stored row of
`stRowId`, whose chunk condition is false. -/
theorem claim_C10_witness :
    getRowToNode { id := "row-7", name := some "Alice", label := "person" }
      = .entity (some "Alice") "person" [] none
    ∧ (getRowToNode { id := "row-7", name := some "Alice", label := "person" }).idOf
      = entityId "person" (some "Alice") :=
  claim_C10.1 { id := "row-7", name := some "Alice", label := "person" } (by decide)

end PGStore
